import Mathlib

/-!
# AP-analysis pipeline: shallow embedding and verification

This file embeds the cleaning, feature-derivation, aggregation, KPI,
loader and safe-save logic of the accounts-payable analysis pipeline
(`ap_cleaning.py`, `ap_kpis.py`, `ap_reports.py`, `app.py`) and proves
the specified properties about it.

Modelling conventions:
* a table is a `List Row`; a `Row` carries its cells already parsed:
  `none` models a missing or unparseable cell (pandas `NaN`/`NaT`,
  i.e. the result of `pd.to_numeric(..., errors="coerce")` or
  `pd.to_datetime(..., errors="coerce")` on bad input);
* dates are day numbers (`Int`), so date subtraction `.dt.days` is
  integer subtraction;
* amounts are rationals (`Rat`);
* `sum` over a pandas column skips `NaN`, which the model renders as
  `Option.getD 0`.
-/

/-! ### String primitives

The built-in `String` functions are opaque to the kernel, so the string
operations the pipeline uses (`str.strip()`, `str.lower()`, the
`*.xlsx` glob and lexicographic filename order) are modelled
structurally over the underlying character list. -/

/-- Whitespace stripped by `str.strip()`. -/
def isSpaceChar (c : Char) : Bool :=
  c == ' ' || c == '\t' || c == '\n' || c == '\r'

/-- `str.strip()`: drop whitespace from both ends. -/
def pyStrip (s : String) : String :=
  ⟨((s.data.dropWhile isSpaceChar).reverse.dropWhile isSpaceChar).reverse⟩

/-- `str.lower()` (code points, ASCII case mapping). -/
def pyLower (s : String) : String :=
  ⟨s.data.map Char.toLower⟩

/-- Whether a filename matches the glob `*.xlsx`. -/
def xlsxFile (f : String) : Bool :=
  List.isSuffixOf ".xlsx".data f.data

/-- Code-point lexicographic order on character lists (the order Python's
`sorted()` uses on path strings). -/
def lexLe : List Char → List Char → Bool
  | [], _ => true
  | _ :: _, [] => false
  | c :: cs, d :: ds =>
    if c < d then true
    else if d < c then false
    else lexLe cs ds

def strLe (a b : String) : Bool :=
  lexLe a.data b.data

instance : IsTrans String (fun a b => strLe a b = true) where
  trans := by
    have aux : ∀ as bs cs : List Char,
        lexLe as bs = true → lexLe bs cs = true → lexLe as cs = true := by
      intro as
      induction as with
      | nil => intro bs cs h1 h2; simp [lexLe]
      | cons a as ih =>
        intro bs cs h1 h2
        cases bs with
        | nil => simp [lexLe] at h1
        | cons b bs =>
          cases cs with
          | nil => simp [lexLe] at h2
          | cons c cs =>
            simp only [lexLe] at h1 h2 ⊢
            by_cases hab : a < b
            · by_cases hbc : b < c
              · simp [lt_trans hab hbc]
              · by_cases hcb : c < b
                · simp [hbc, hcb] at h2
                · have hbceq : b = c := le_antisymm (not_lt.mp hcb) (not_lt.mp hbc)
                  subst hbceq
                  simp [hab]
            · by_cases hba : b < a
              · simp [hab, hba] at h1
              · have habeq : a = b := le_antisymm (not_lt.mp hba) (not_lt.mp hab)
                subst habeq
                simp only [lt_irrefl, if_false] at h1
                by_cases hac : a < c
                · simp [hac]
                · by_cases hca : c < a
                  · simp [hac, hca] at h2
                  · have haceq : a = c := le_antisymm (not_lt.mp hca) (not_lt.mp hac)
                    subst haceq
                    simp only [lt_irrefl, if_false] at h2 ⊢
                    exact ih bs cs h1 h2
    intro a b c h1 h2
    exact aux a.data b.data c.data h1 h2

instance : IsTotal String (fun a b => strLe a b = true) where
  total := by
    have aux : ∀ as bs : List Char, lexLe as bs = true ∨ lexLe bs as = true := by
      intro as
      induction as with
      | nil => intro bs; left; simp [lexLe]
      | cons a as ih =>
        intro bs
        cases bs with
        | nil => right; simp [lexLe]
        | cons b bs =>
          rcases lt_trichotomy a b with h | h | h
          · left; simp [lexLe, h]
          · subst h
            rcases ih bs with h2 | h2
            · left; simp [lexLe, lt_irrefl, h2]
            · right; simp [lexLe, lt_irrefl, h2]
          · right; simp [lexLe, h]
    intro a b
    exact aux a.data b.data

/-- One invoice record (a row of the source table), cells post-parse. -/
structure Row where
  apid : Option String
  vendor : Option String
  invoiceDate : Option Int
  dueDate : Option Int
  paidDate : Option Int
  amount : Option Rat
  currency : Option String
  status : Option String
deriving DecidableEq, Repr

/-- `ALLOWED_CCY = {"USD","EUR","GBP","CAD","AUD","JPY"}` from `ap_cleaning.py`. -/
def ALLOWED_CCY : List String := ["USD", "EUR", "GBP", "CAD", "AUD", "JPY"]

/-- `df_chk["APID"].isna() | (df_chk["APID"].astype(str).str.strip() == "")`. -/
def apid_missing (r : Row) : Bool :=
  match r.apid with
  | none => true
  | some a => pyStrip a == ""

/-- `amt_num.isna() | (amt_num <= 0)` where `amt_num = pd.to_numeric(df["Amount"], errors="coerce")`. -/
def amt_invalid (r : Row) : Bool :=
  match r.amount with
  | none => true
  | some q => decide (q ≤ 0)

/-- `df_chk["InvoiceDate"].isna() | df_chk["DueDate"].isna()` after datetime coercion. -/
def invalid_dates (r : Row) : Bool :=
  r.invoiceDate.isNone || r.dueDate.isNone

/-- `df_chk["DueDate"] < df_chk["InvoiceDate"]`; any comparison with `NaT` is `False`. -/
def due_before_invoice (r : Row) : Bool :=
  match r.dueDate, r.invoiceDate with
  | some d, some i => decide (d < i)
  | _, _ => false

/-- `~df_chk["Currency"].astype(str).str.strip().isin(ALLOWED_CCY)`.
A `NaN` currency renders as the string `"nan"`, which is not in the
allowed set, so the `none` branch is invalid. -/
def ccy_invalid (r : Row) : Bool :=
  match r.currency with
  | none => true
  | some c => !(ALLOWED_CCY.contains (pyStrip c))

/-- The composite duplicate key `(APID, Vendor, InvoiceDate, Amount)`.
The source joins the string renderings of the four cells with `"|"`;
the model keeps the tuple of cell values, on which the rendering is
injective. -/
abbrev Key := Option String × Option String × Option Int × Option Rat

def compkey (r : Row) : Key :=
  (r.apid, r.vendor, r.invoiceDate, r.amount)

/-- Number of rows of the table whose composite key equals `k`. -/
def countKey (rows : List Row) (k : Key) : Nat :=
  (rows.filter (fun s => compkey s == k)).length

/-- `compkey.duplicated(keep=False)`: a row is marked iff at least two
rows of the table (itself included) share its composite key. -/
def is_dup (rows : List Row) (r : Row) : Bool :=
  decide (2 ≤ countKey rows (compkey r))

/-- The union drop mask of `ap_cleaning.main`:
`apid_missing | amt_invalid | invalid_dates | due_before_invoice | ccy_invalid | is_dup`. -/
def drop_mask (rows : List Row) (r : Row) : Bool :=
  apid_missing r || amt_invalid r || invalid_dates r ||
    due_before_invoice r || ccy_invalid r || is_dup rows r

/-- `df_clean = df_raw.loc[~drop_mask]`: the batch-cleaned table. -/
def cleanRows (rows : List Row) : List Row :=
  rows.filter (fun r => !drop_mask rows r)

/-! ## Feature derivation (`_ensure_features` in `ap_kpis.py` / `ap_reports.py`) -/

/-- `IsPaid = Status.astype(str).str.lower().eq("paid") | PaidDate.notna()`.
A `NaN` status renders as `"nan"`, which is not `"paid"`. -/
def isPaid (r : Row) : Bool :=
  (match r.status with
   | some s => pyLower s == "paid"
   | none => false) || r.paidDate.isSome

/-- `np.where(IsPaid, (PaidDate - DueDate).dt.days, (today - DueDate).dt.days)`
before `fillna`/`clip`; `none` models the `NaN` produced when a needed
date is missing. -/
def dpd_raw (today : Int) (r : Row) : Option Int :=
  match r.dueDate with
  | none => none
  | some d =>
    if isPaid r then
      match r.paidDate with
      | none => none
      | some p => some (p - d)
    else
      some (today - d)

/-- `DaysPastDue = df["DaysPastDue"].fillna(0).clip(lower=0)`. -/
def daysPastDue (today : Int) (r : Row) : Int :=
  max 0 ((dpd_raw today r).getD 0)

/-- The aging bucket labels of `pd.cut(..., labels=["Current","0–30","31–60","61–90",">90"])`. -/
inductive Bucket where
  | current
  | b0_30
  | b31_60
  | b61_90
  | over90
deriving DecidableEq, Repr

/-- `pd.cut(DaysPastDue, bins=[-1, 0, 30, 60, 90, inf])`: left-open,
right-closed intervals; a value at or below the lower sentinel `-1`
falls in no bin (`NaN`, modelled `none`). -/
def agingBucket (d : Int) : Option Bucket :=
  if d ≤ -1 then none
  else if d ≤ 0 then some .current
  else if d ≤ 30 then some .b0_30
  else if d ≤ 60 then some .b31_60
  else if d ≤ 90 then some .b61_90
  else some .over90

/-- `if "AgingBucket" not in df.columns: df["AgingBucket"] = pd.cut(...)`:
an already-present column is kept verbatim; only when absent is it
synthesized from `DaysPastDue`. -/
def ensure_aging_bucket (existing : Option (List (Option Bucket)))
    (dpds : List Int) : List (Option Bucket) :=
  match existing with
  | some col => col
  | none => dpds.map agingBucket

/-! ## Aggregation (`ap_reports.py`) and KPIs (`ap_kpis.py`) -/

/-- Contribution of a row to a pandas `Amount` sum (`NaN` is skipped). -/
def amountOf (r : Row) : Rat :=
  r.amount.getD 0

def sumAmount (rows : List Row) : Rat :=
  (rows.map amountOf).sum

/-- `open_df = df.loc[~df["IsPaid"]]`. -/
def openRows (rows : List Row) : List Row :=
  rows.filter (fun r => !isPaid r)

/-- The category order of the `AgingBucket` categorical; `groupby` over a
categorical yields one group per category, in this order. -/
def allBuckets : List Bucket :=
  [.current, .b0_30, .b31_60, .b61_90, .over90]

/-- `report_aging_open`: open invoices grouped by `AgingBucket`, with
summed `Amount` and row count, in category order. -/
def report_aging_open (today : Int) (rows : List Row) : List (Bucket × Rat × Nat) :=
  let xs := openRows rows
  allBuckets.map fun b =>
    let grp := xs.filter (fun r => agingBucket (daysPastDue today r) == some b)
    (b, sumAmount grp, grp.length)

/-- The group keys of `df.groupby("Vendor")`: distinct non-missing vendor
names, in ascending order (pandas sorts group keys; a stable sort models it). -/
def vendor_keys (rows : List Row) : List String :=
  List.insertionSort (fun a b => strLe a b = true) ((rows.filterMap (fun r => r.vendor)).dedup)

/-- Summed `Amount` of one vendor group. -/
def vendor_sum (rows : List Row) (v : String) : Rat :=
  sumAmount (rows.filter (fun r => r.vendor == some v))

/-- `report_top_vendors`: vendor groups with summed `Amount`, sorted
descending by amount, truncated to the first `topN` (`.head(top_n)`). -/
def report_top_vendors (rows : List Row) (topN : Nat) : List (String × Rat) :=
  (List.insertionSort (fun a b : String × Rat => b.2 ≤ a.2)
      ((vendor_keys rows).map (fun v => (v, vendor_sum rows v)))).take topN

/-- `kpis["open_amount"] = df.loc[open_mask, "Amount"].sum()`. -/
def open_amount (rows : List Row) : Rat :=
  sumAmount (openRows rows)

/-- `overdue_mask = open_mask & (df["DaysPastDue"] > 0)`; its summed amount. -/
def overdue_amount (today : Int) (rows : List Row) : Rat :=
  sumAmount (rows.filter (fun r => !isPaid r && decide (0 < daysPastDue today r)))

/-- `pct_overdue_amount = overdue_amount / open_amount * 100 if open_amount not in (0, None) else None`. -/
def pct_overdue_amount (today : Int) (rows : List Row) : Option Rat :=
  if open_amount rows = 0 then none
  else some (overdue_amount today rows / open_amount rows * 100)

/-- `total_amt = vendor_sum.sum()` over all vendor groups. -/
def vendor_total (rows : List Row) : Rat :=
  ((vendor_keys rows).map (vendor_sum rows)).sum

/-- `top10_vendor_share_pct = top10 / total_amt * 100 if total_amt else None`. -/
def top10_vendor_share_pct (rows : List Row) : Option Rat :=
  if vendor_total rows = 0 then none
  else some ((((report_top_vendors rows 10).map (fun p => p.2)).sum) / vendor_total rows * 100)

/-! ## Safe CSV save (`safe_save_csv` in `ap_cleaning.py`)

The filesystem is modelled by the contents (an abstract data id) at the
three paths the function touches: the temporary file, the destination,
and the timestamp-suffixed fallback. `locked i` says whether the
destination is held by another process during attempt `i` (raising
`PermissionError` there). -/

structure FS where
  tmp : Option Nat
  dest : Option Nat
  fallback : Option Nat
deriving DecidableEq, Repr

/-- `retries = 5` (the default of `safe_save_csv`). -/
def RETRIES : Nat := 5

/-- The retry loop body: on a free destination, `df.to_csv(tmp)` then
`os.replace(tmp, out_path)` and return; on `PermissionError`, unlink the
temporary file, sleep `sleep_s`, and try again; when attempts are
exhausted, write the data to the fallback path and warn. Returns the
final filesystem and the number of sleeps taken. -/
def save_go (data : Nat) (locked : Nat → Bool) : Nat → Nat → FS × Nat
  | _, 0 => ({ tmp := none, dest := none, fallback := some data }, 0)
  | i, fuel + 1 =>
    if locked i then
      let (fs, s) := save_go data locked (i + 1) fuel
      (fs, s + 1)
    else
      ({ tmp := none, dest := some data, fallback := none }, 0)

def safe_save_csv (data : Nat) (locked : Nat → Bool) : FS × Nat :=
  save_go data locked 0 RETRIES

/-! ## Loader (`find_excel` in `ap_cleaning.py`, `load_clean_or_raw` in `ap_kpis.py`) -/

/-- `sorted(RAW.glob("*.xlsx"))` then `files[0]`, or a
`FileNotFoundError` when no spreadsheet matches. -/
def find_excel (files : List String) : Except String String :=
  match List.insertionSort (fun a b => strLe a b = true) (files.filter xlsxFile) with
  | [] => .error "No Excel file found in data/raw/"
  | f :: _ => .ok f

inductive LoadSource where
  | cached
  | rawExcel (file : String)
deriving DecidableEq, Repr

/-- `load_clean_or_raw`: prefer the cached `ap_clean.csv` when it exists;
otherwise fall back to the first raw spreadsheet, failing when neither
is available. -/
def load_clean_or_raw (cleanExists : Bool) (files : List String) :
    Except String LoadSource :=
  if cleanExists then .ok .cached
  else
    match List.insertionSort (fun a b => strLe a b = true) (files.filter xlsxFile) with
    | [] => .error "No cleaned CSV or raw Excel found."
    | f :: _ => .ok (.rawExcel f)

/-! ## Dashboard cleaner (`_clean` in `app.py`) -/

/-- The five sequential validity filters of `_clean`, in source order:
`APID` present and non-blank; coerced `Amount > 0`; both dates parse;
`DueDate >= InvoiceDate`; stripped `Currency` in the allowed set
(a missing currency renders as `"nan"`, outside the set). -/
def app_filters (rows : List Row) : List Row :=
  ((((rows.filter (fun r => !apid_missing r)).filter
      (fun r =>
        match r.amount with
        | some q => decide (0 < q)
        | none => false)).filter
      (fun r => r.invoiceDate.isSome && r.dueDate.isSome)).filter
      (fun r =>
        match r.dueDate, r.invoiceDate with
        | some d, some i => decide (i ≤ d)
        | _, _ => false)).filter
      (fun r =>
        match r.currency with
        | some c => ALLOWED_CCY.contains (pyStrip c)
        | none => false)

/-- `df.drop_duplicates(subset="CompositeKey", keep="first")`: keep a
row iff its composite key has not been seen at an earlier position. -/
def dedup_first (seen : List Key) : List Row → List Row
  | [] => []
  | r :: rs =>
    if compkey r ∈ seen then dedup_first seen rs
    else r :: dedup_first (compkey r :: seen) rs

/-- The dashboard cleaner `_clean`: validity filters, then first-kept
deduplication on the composite key. -/
def app_clean (rows : List Row) : List Row :=
  dedup_first [] (app_filters rows)

/-- The conjunction of the five row-level validity predicates (shared by
the batch cleaner's mask and the dashboard's filters). -/
def row_valid (r : Row) : Bool :=
  !apid_missing r && !amt_invalid r && !invalid_dates r &&
    !due_before_invoice r && !ccy_invalid r

/-- The invariant set for a clean table: every row valid and no
composite key repeated. -/
def clean_invariant (rows : List Row) : Prop :=
  (∀ r ∈ rows, row_valid r = true) ∧ (rows.map compkey).Nodup

/-! ## Concrete example tables (used to instantiate theorems) -/

/-- A valid open invoice. -/
def rowA : Row :=
  { apid := some "AP-1", vendor := some "Acme", invoiceDate := some 100,
    dueDate := some 130, paidDate := none, amount := some 250,
    currency := some "USD", status := some "Open" }

/-- A valid paid invoice. -/
def rowB : Row :=
  { apid := some "AP-2", vendor := some "Besta", invoiceDate := some 101,
    dueDate := some 131, paidDate := some 140, amount := some 120,
    currency := some "EUR", status := some "Paid" }

/-- A clean two-row table: both rows valid, keys distinct. -/
def exGood : List Row := [rowA, rowB]

/-- A table whose two rows agree on the whole composite key. -/
def exDup : List Row := [rowA, rowA]

/-- A second duplicated-key table (dashboard comparison). -/
def exDupApp : List Row := [rowB, rowB]

/-- Eleven valid rows with eleven distinct vendors, `Amount = 1` each. -/
def exVendors : List Row :=
  ["V01", "V02", "V03", "V04", "V05", "V06", "V07", "V08", "V09", "V10", "V11"].map
    (fun v => { rowA with vendor := some v, apid := some v, amount := some 1 })

/-- A one-row table whose `Vendor` cell is missing. -/
def exNoVendor : List Row :=
  [{ rowA with vendor := none }]

/-! ## Claim theorems -/

/-- **C3**: after feature derivation `DaysPastDue >= 0` for every row;
for a paid row it is `(PaidDate - DueDate)` in days clipped to `>= 0`,
for an open row `(today - DueDate)` in days clipped to `>= 0`, and when
a required date input is missing it is `0`. -/
theorem days_past_due_spec (today : Int) (r : Row) :
    0 ≤ daysPastDue today r ∧
    (isPaid r = true → ∀ p d, r.paidDate = some p → r.dueDate = some d →
      daysPastDue today r = max 0 (p - d)) ∧
    (isPaid r = false → ∀ d, r.dueDate = some d →
      daysPastDue today r = max 0 (today - d)) ∧
    (r.dueDate = none → daysPastDue today r = 0) ∧
    (isPaid r = true → r.paidDate = none → daysPastDue today r = 0) := by
  refine ⟨le_max_left _ _, ?_, ?_, ?_, ?_⟩
  · intro hp p d hpd hdd
    simp [daysPastDue, dpd_raw, hp, hpd, hdd]
  · intro hp d hdd
    simp [daysPastDue, dpd_raw, hp, hdd]
  · intro hdd
    simp [daysPastDue, dpd_raw, hdd]
  · intro hp hpd
    cases hdd : r.dueDate <;> simp [daysPastDue, dpd_raw, hp, hpd, hdd]

/-- Witness for `days_past_due_spec` at a concrete paid row. -/
theorem days_past_due_spec_witness :
    daysPastDue 200 rowB = max 0 (140 - 131) :=
  (days_past_due_spec 200 rowB).2.1 (by decide) 140 131 (by decide) (by decide)

/-- **C4**: `AgingBucket` is the `pd.cut` binning of `DaysPastDue` with
boundaries `-1, 0, 30, 60, 90, inf` (left-open/right-closed):
`0 ↦ Current`, `30 ↦ 0–30`, `60 ↦ 31–60`, `90 ↦ 61–90`, `91 ↦ >90`
(and every larger value to `>90`); and an already-present `AgingBucket`
column is never recomputed. -/
theorem aging_bucket_spec :
    agingBucket 0 = some .current ∧
    agingBucket 30 = some .b0_30 ∧
    agingBucket 60 = some .b31_60 ∧
    agingBucket 90 = some .b61_90 ∧
    agingBucket 91 = some .over90 ∧
    (∀ d : Int, 0 ≤ d → d ≤ 0 → agingBucket d = some .current) ∧
    (∀ d : Int, 1 ≤ d → d ≤ 30 → agingBucket d = some .b0_30) ∧
    (∀ d : Int, 31 ≤ d → d ≤ 60 → agingBucket d = some .b31_60) ∧
    (∀ d : Int, 61 ≤ d → d ≤ 90 → agingBucket d = some .b61_90) ∧
    (∀ d : Int, 91 ≤ d → agingBucket d = some .over90) ∧
    (∀ col dpds, ensure_aging_bucket (some col) dpds = col) := by
  refine ⟨by decide, by decide, by decide, by decide, by decide, ?_, ?_, ?_, ?_, ?_,
    fun col dpds => rfl⟩
  · intro d h1 h2
    unfold agingBucket
    rw [if_neg (by omega), if_pos (by omega)]
  · intro d h1 h2
    unfold agingBucket
    rw [if_neg (by omega), if_neg (by omega), if_pos (by omega)]
  · intro d h1 h2
    unfold agingBucket
    rw [if_neg (by omega), if_neg (by omega), if_neg (by omega), if_pos (by omega)]
  · intro d h1 h2
    unfold agingBucket
    rw [if_neg (by omega), if_neg (by omega), if_neg (by omega), if_neg (by omega),
      if_pos (by omega)]
  · intro d h1
    unfold agingBucket
    rw [if_neg (by omega), if_neg (by omega), if_neg (by omega), if_neg (by omega),
      if_neg (by omega)]

/-- Witness for `aging_bucket_spec` inside the `31–60` bin. -/
theorem aging_bucket_spec_witness : agingBucket 45 = some .b31_60 :=
  aging_bucket_spec.2.2.2.2.2.2.2.1 45 (by decide) (by decide)

/-- **C7**: a KPI ratio with a zero denominator yields null rather than
raising or producing zero: `open_amount = 0` gives
`pct_overdue_amount = None` (and otherwise the ratio is computed), and
`vendor_total = 0` gives `top10_vendor_share_pct = None`. -/
theorem kpi_null_on_zero_denominator (today : Int) (rows : List Row) :
    (open_amount rows = 0 → pct_overdue_amount today rows = none) ∧
    (open_amount rows ≠ 0 →
      pct_overdue_amount today rows =
        some (overdue_amount today rows / open_amount rows * 100)) ∧
    (vendor_total rows = 0 → top10_vendor_share_pct rows = none) := by
  refine ⟨fun h => ?_, fun h => ?_, fun h => ?_⟩
  · simp [pct_overdue_amount, h]
  · simp [pct_overdue_amount, h]
  · simp [top10_vendor_share_pct, h]

/-- Witness for `kpi_null_on_zero_denominator`: the empty table has zero
open amount and a null overdue percentage. -/
theorem kpi_null_on_zero_denominator_witness :
    pct_overdue_amount 0 ([] : List Row) = none :=
  (kpi_null_on_zero_denominator 0 []).1 (by decide)

/-- **C8**: `safe_save_csv` writes via a temporary file and `os.replace`;
a locking failure is retried at most `RETRIES = 5` times (one sleep per
failure); if every attempt fails the data goes to the timestamp-suffixed
fallback path (with a warning, not an error), so the data is persisted
at some path in every outcome, and no temporary file is left behind. -/
theorem safe_save_csv_spec (data : Nat) (locked : Nat → Bool) :
    ((safe_save_csv data locked).1.dest = some data ∨
      (safe_save_csv data locked).1.fallback = some data) ∧
    (safe_save_csv data locked).2 ≤ RETRIES ∧
    ((safe_save_csv data locked).1.fallback = some data ↔
      ∀ j, j < RETRIES → locked j = true) ∧
    ((∃ j, j < RETRIES ∧ locked j = false) →
      (safe_save_csv data locked).1.dest = some data) ∧
    (safe_save_csv data locked).1.tmp = none := by
  have main : ∀ (fuel i : Nat),
      ((save_go data locked i fuel).1.dest = some data ∨
        (save_go data locked i fuel).1.fallback = some data) ∧
      (save_go data locked i fuel).2 ≤ fuel ∧
      ((save_go data locked i fuel).1.fallback = some data ↔
        ∀ j, j < fuel → locked (i + j) = true) ∧
      (save_go data locked i fuel).1.tmp = none := by
    intro fuel
    induction fuel with
    | zero =>
      intro i
      refine ⟨Or.inr rfl, le_refl _, ?_, rfl⟩
      simp [save_go]
    | succ n ih =>
      intro i
      by_cases hl : locked i
      · have hstep : save_go data locked i (n + 1) =
            ((save_go data locked (i + 1) n).1, (save_go data locked (i + 1) n).2 + 1) := by
          simp [save_go, hl]
        have hrec := ih (i + 1)
        rw [hstep]
        refine ⟨hrec.1, by have := hrec.2.1; omega, ?_, hrec.2.2.2⟩
        rw [hrec.2.2.1]
        constructor
        · intro hall j hj
          cases j with
          | zero => simpa using hl
          | succ j =>
            have hj2 : j < n := by omega
            have := hall j hj2
            have harith : i + 1 + j = i + (j + 1) := by omega
            rwa [harith] at this
        · intro hall j hj
          have harith : i + (j + 1) = i + 1 + j := by omega
          have := hall (j + 1) (by omega)
          rwa [harith] at this
      · have hstep : save_go data locked i (n + 1) =
            ({ tmp := none, dest := some data, fallback := none }, 0) := by
          simp [save_go, hl]
        rw [hstep]
        refine ⟨Or.inl rfl, by omega, ?_, rfl⟩
        constructor
        · intro hfb
          simp at hfb
        · intro hall
          have := hall 0 (by omega)
          simp [hl] at this
  have h := main RETRIES 0
  simp only [Nat.zero_add] at h
  refine ⟨h.1, h.2.1, h.2.2.1, ?_, h.2.2.2⟩
  intro hex
  rcases hex with ⟨j, hj, hfree⟩
  rcases h.1 with hdest | hfb
  · exact hdest
  · exact absurd (h.2.2.1.mp hfb j hj) (by simp [hfree])

/-- Witness for `safe_save_csv_spec`: with the destination free at the
first attempt the data lands at the destination. -/
theorem safe_save_csv_spec_witness :
    (safe_save_csv 7 (fun _ => false)).1.dest = some 7 :=
  (safe_save_csv_spec 7 (fun _ => false)).2.2.2.1 ⟨0, by decide, rfl⟩

/-! ### Cleaning lemmas -/

theorem countKey_cons (r : Row) (l : List Row) (k : Key) :
    countKey (r :: l) k = (if compkey r = k then 1 else 0) + countKey l k := by
  simp only [countKey, List.filter_cons]
  by_cases h : compkey r = k
  · simp [h]
    omega
  · simp [h]

theorem countKey_sublist {l₁ l₂ : List Row} (h : l₁.Sublist l₂) (k : Key) :
    countKey l₁ k ≤ countKey l₂ k :=
  List.Sublist.length_le (h.filter _)

theorem countKey_pos {l : List Row} {s : Row} (hs : s ∈ l) {k : Key}
    (hk : compkey s = k) : 1 ≤ countKey l k := by
  have hmem : s ∈ l.filter (fun x => compkey x == k) :=
    List.mem_filter.mpr ⟨hs, by simp [hk]⟩
  have := List.length_pos.mpr (List.ne_nil_of_mem hmem)
  simpa [countKey] using this

/-- Key multiplicities characterize key-column `Nodup`. -/
theorem nodup_keys_iff (l : List Row) :
    (l.map compkey).Nodup ↔ ∀ r ∈ l, countKey l (compkey r) ≤ 1 := by
  induction l with
  | nil => simp
  | cons r rs ih =>
    simp only [List.map_cons, List.nodup_cons]
    constructor
    · rintro ⟨hnotmem, hnd⟩ s hs
      rw [countKey_cons]
      rcases List.mem_cons.mp hs with rfl | hmem
      · rw [if_pos rfl]
        have hzero : countKey rs (compkey s) = 0 := by
          by_contra hne
          have hpos : 0 < countKey rs (compkey s) := Nat.pos_of_ne_zero hne
          have hne2 : rs.filter (fun x => compkey x == compkey s) ≠ [] := by
            intro hb
            rw [countKey, hb] at hpos
            simp at hpos
          obtain ⟨t, ht⟩ := List.exists_mem_of_ne_nil _ hne2
          have ht2 := List.mem_filter.mp ht
          exact hnotmem (List.mem_map.mpr ⟨t, ht2.1, by simpa using ht2.2⟩)
        omega
      · rw [if_neg ?_]
        · have := ih.mp hnd s hmem
          omega
        · intro heq
          exact hnotmem (List.mem_map.mpr ⟨s, hmem, heq.symm⟩)
    · intro h
      constructor
      · intro hmem
        rcases List.mem_map.mp hmem with ⟨t, ht, hkt⟩
        have h1 := h r (List.mem_cons_self r rs)
        rw [countKey_cons, if_pos rfl] at h1
        have h2 : 1 ≤ countKey rs (compkey r) := countKey_pos ht hkt
        omega
      · apply ih.mpr
        intro s hs
        have h1 := h s (List.mem_cons_of_mem r hs)
        rw [countKey_cons] at h1
        by_cases hc : compkey r = compkey s
        · rw [if_pos hc] at h1; omega
        · rw [if_neg hc] at h1; omega

/-- Membership in the cleaned table decomposes into the six mask
components being unset. -/
theorem mem_cleanRows {rows : List Row} {r : Row} (h : r ∈ cleanRows rows) :
    r ∈ rows ∧ apid_missing r = false ∧ amt_invalid r = false ∧
      invalid_dates r = false ∧ due_before_invoice r = false ∧
      ccy_invalid r = false ∧ countKey rows (compkey r) ≤ 1 := by
  have h2 := List.mem_filter.mp h
  refine ⟨h2.1, ?_⟩
  have h3 : drop_mask rows r = false := by simpa using h2.2
  simp only [drop_mask, Bool.or_eq_false_iff] at h3
  obtain ⟨⟨⟨⟨⟨h4, h5⟩, h6⟩, h7⟩, h8⟩, h9⟩ := h3
  refine ⟨h4, h5, h6, h7, h8, ?_⟩
  simp only [is_dup, decide_eq_false_iff_not, not_le] at h9
  omega

theorem cleanRows_keys_nodup (rows : List Row) :
    ((cleanRows rows).map compkey).Nodup := by
  rw [nodup_keys_iff]
  intro r hr
  have hm := mem_cleanRows hr
  have hsub : (cleanRows rows).Sublist rows :=
    show (rows.filter (fun s => !drop_mask rows s)).Sublist rows from
      List.filter_sublist rows
  have hle := countKey_sublist hsub (compkey r)
  have := hm.2.2.2.2.2.2
  exact le_trans hle this

/-- **C1**: every row of the batch-cleaned output has a present,
non-blank `APID`, a parsed `Amount > 0`, parsed `InvoiceDate` and
`DueDate` with `DueDate >= InvoiceDate`, a trimmed `Currency` in the
allowed set, and no two surviving rows share the composite key
`(APID, Vendor, InvoiceDate, Amount)`. -/
theorem clean_output_valid (rows : List Row) :
    (∀ r ∈ cleanRows rows,
      (∃ a, r.apid = some a ∧ pyStrip a ≠ "") ∧
      (∃ q, r.amount = some q ∧ 0 < q) ∧
      (∃ i d, r.invoiceDate = some i ∧ r.dueDate = some d ∧ i ≤ d) ∧
      (∃ c, r.currency = some c ∧ pyStrip c ∈ ALLOWED_CCY)) ∧
    ((cleanRows rows).map compkey).Nodup := by
  refine ⟨?_, cleanRows_keys_nodup rows⟩
  intro r hr
  obtain ⟨-, h4, h5, h6, h7, h8, -⟩ := mem_cleanRows hr
  refine ⟨?_, ?_, ?_, ?_⟩
  · cases ha : r.apid with
    | none => rw [apid_missing, ha] at h4; simp at h4
    | some a =>
      refine ⟨a, rfl, ?_⟩
      rw [apid_missing, ha] at h4
      simpa using h4
  · cases hq : r.amount with
    | none => rw [amt_invalid, hq] at h5; simp at h5
    | some q =>
      refine ⟨q, rfl, ?_⟩
      rw [amt_invalid, hq] at h5
      simpa using h5
  · cases hi : r.invoiceDate with
    | none => simp [invalid_dates, hi] at h6
    | some i =>
      cases hd : r.dueDate with
      | none => simp [invalid_dates, hd] at h6
      | some d =>
        refine ⟨i, d, rfl, rfl, ?_⟩
        rw [due_before_invoice, hd, hi] at h7
        simpa using h7
  · cases hc : r.currency with
    | none => rw [ccy_invalid, hc] at h8; simp at h8
    | some c =>
      refine ⟨c, rfl, ?_⟩
      rw [ccy_invalid, hc] at h8
      simpa using h8

/-- Witness for `clean_output_valid` at a concrete two-row table. -/
theorem clean_output_valid_witness :
    (∃ q, rowA.amount = some q ∧ 0 < q) ∧ ((cleanRows exGood).map compkey).Nodup :=
  ⟨((clean_output_valid exGood).1 rowA (by decide)).2.1, (clean_output_valid exGood).2⟩

/-- **C2**: when at least two rows of the input share a composite key,
no row of that group survives batch cleaning (the whole group is
dropped, not just the extras). -/
theorem clean_drops_duplicate_groups (rows : List Row) (r : Row)
    (_hmem : r ∈ rows) (hdup : 2 ≤ countKey rows (compkey r)) :
    r ∉ cleanRows rows := by
  intro hr
  have := (mem_cleanRows hr).2.2.2.2.2.2
  omega

/-- Witness for `clean_drops_duplicate_groups`: two identical valid rows
are both dropped. -/
theorem clean_drops_duplicate_groups_witness : rowA ∉ cleanRows exDup :=
  clean_drops_duplicate_groups exDup rowA (by decide) (by decide)

/-- A table of valid rows with pairwise-distinct keys is left unchanged
by the batch cleaner. -/
theorem cleanRows_eq_self (rows : List Row)
    (hv : ∀ r ∈ rows, row_valid r = true)
    (hnd : (rows.map compkey).Nodup) : cleanRows rows = rows := by
  apply List.filter_eq_self.mpr
  intro r hr
  have h1 := hv r hr
  simp only [row_valid, Bool.and_eq_true, Bool.not_eq_true'] at h1
  obtain ⟨⟨⟨⟨ha, hb⟩, hc⟩, hd⟩, he⟩ := h1
  have hcount := (nodup_keys_iff rows).mp hnd r hr
  simp only [Bool.not_eq_true', drop_mask, Bool.or_eq_false_iff]
  refine ⟨⟨⟨⟨⟨ha, hb⟩, hc⟩, hd⟩, he⟩, ?_⟩
  simp only [is_dup, decide_eq_false_iff_not, not_le]
  omega

/-- **C5**: cleaning is idempotent — a table satisfying the cleaning
invariants is returned unchanged (zero rows marked), and in particular
re-cleaning a cleaned table changes nothing. -/
theorem clean_idempotent (rows : List Row) :
    (clean_invariant rows → cleanRows rows = rows) ∧
    cleanRows (cleanRows rows) = cleanRows rows := by
  constructor
  · rintro ⟨hv, hnd⟩
    exact cleanRows_eq_self rows hv hnd
  · apply cleanRows_eq_self
    · intro r hr
      obtain ⟨-, h4, h5, h6, h7, h8, -⟩ := mem_cleanRows hr
      simp [row_valid, h4, h5, h6, h7, h8]
    · exact cleanRows_keys_nodup rows

/-- Witness for `clean_idempotent` at a concrete already-clean table. -/
theorem clean_idempotent_witness : cleanRows exGood = exGood :=
  (clean_idempotent exGood).1 ⟨by decide, by decide⟩

/-! ### Loader lemmas -/

theorem lexLe_refl (as : List Char) : lexLe as as = true := by
  induction as with
  | nil => simp [lexLe]
  | cons a as ih => simp [lexLe, lt_irrefl, ih]

/-- **C9**: `find_excel` errors iff no `*.xlsx` file exists; a returned
file is a `*.xlsx` member of the directory that is lexicographically
least among them; and `load_clean_or_raw` prefers the cached cleaned
table whenever it exists. -/
theorem loader_spec (files : List String) (cleanExists : Bool) :
    (find_excel files = .error "No Excel file found in data/raw/" ↔
      ∀ f ∈ files, xlsxFile f = false) ∧
    (∀ f, find_excel files = .ok f →
      f ∈ files ∧ xlsxFile f = true ∧
      ∀ g ∈ files, xlsxFile g = true → strLe f g = true) ∧
    (cleanExists = true → load_clean_or_raw cleanExists files = .ok .cached) := by
  have hperm :=
    List.perm_insertionSort (fun a b => strLe a b = true) (files.filter xlsxFile)
  have hsorted :=
    List.sorted_insertionSort (fun a b => strLe a b = true) (files.filter xlsxFile)
  refine ⟨?_, ?_, ?_⟩
  · constructor
    · intro herr
      intro f hf
      rcases hs : List.insertionSort (fun a b => strLe a b = true)
          (files.filter xlsxFile) with _ | ⟨f0, rest⟩
      · rw [hs] at hperm
        have hnil : files.filter xlsxFile = [] := (List.perm_nil.mp hperm.symm)
        have := List.filter_eq_nil_iff.mp hnil f hf
        simpa using this
      · rw [find_excel, hs] at herr
        cases herr
    · intro hall
      have hnil : files.filter xlsxFile = [] :=
        List.filter_eq_nil_iff.mpr (fun a ha => by simp [hall a ha])
      rw [find_excel, hnil]
      rfl
  · intro f hok
    rcases hs : List.insertionSort (fun a b => strLe a b = true)
        (files.filter xlsxFile) with _ | ⟨f0, rest⟩
    · rw [find_excel, hs] at hok
      cases hok
    · rw [find_excel, hs] at hok
      have hf : f0 = f := by cases hok; rfl
      subst hf
      have hmem : f0 ∈ files.filter xlsxFile := by
        rw [← hperm.mem_iff, hs]
        exact List.mem_cons_self _ _
      have hmem2 := List.mem_filter.mp hmem
      refine ⟨hmem2.1, hmem2.2, ?_⟩
      intro g hg hgx
      have hgmem : g ∈ files.filter xlsxFile := List.mem_filter.mpr ⟨hg, hgx⟩
      rw [← hperm.mem_iff, hs] at hgmem
      rcases List.mem_cons.mp hgmem with rfl | hrest
      · exact lexLe_refl _
      · rw [hs] at hsorted
        exact (List.sorted_cons.mp hsorted).1 g hrest
  · intro hc
    simp [load_clean_or_raw, hc]

/-- Witness for `loader_spec`: with files `b.xlsx`, `a.xlsx`,
`notes.txt` the loader picks `a.xlsx`, and a cached table wins. -/
theorem loader_spec_witness :
    ("a.xlsx" ∈ ["b.xlsx", "a.xlsx", "notes.txt"] ∧ xlsxFile "a.xlsx" = true ∧
      ∀ g ∈ ["b.xlsx", "a.xlsx", "notes.txt"], xlsxFile g = true →
        strLe "a.xlsx" g = true) ∧
    load_clean_or_raw true ["b.xlsx", "a.xlsx", "notes.txt"] = .ok .cached :=
  ⟨(loader_spec ["b.xlsx", "a.xlsx", "notes.txt"] true).2.1 "a.xlsx" (by rfl),
   (loader_spec ["b.xlsx", "a.xlsx", "notes.txt"] true).2.2 rfl⟩

/-! ### Dashboard cleaner lemmas -/

theorem dedup_first_filter (k : Key) :
    ∀ (l : List Row) (seen : List Key),
      (dedup_first seen l).filter (fun r => compkey r == k) =
        if k ∈ seen then [] else ((l.find? (fun r => compkey r == k)).toList) := by
  intro l
  induction l with
  | nil =>
    intro seen
    simp only [dedup_first, List.filter_nil, List.find?_nil]
    split <;> rfl
  | cons r rs ih =>
    intro seen
    by_cases hseen : compkey r ∈ seen
    · rw [dedup_first, if_pos hseen, ih seen]
      by_cases hk : k ∈ seen
      · simp [hk]
      · have hne : compkey r ≠ k := by
          intro heq
          rw [heq] at hseen
          exact hk hseen
        have hbf : (compkey r == k) = false := beq_eq_false_iff_ne.mpr hne
        have hstep : List.find? (fun s => compkey s == k) (r :: rs) =
            List.find? (fun s => compkey s == k) rs := by
          simp [List.find?, hbf]
        rw [if_neg hk, if_neg hk, hstep]
    · rw [dedup_first, if_neg hseen, List.filter_cons]
      by_cases hrk : compkey r = k
      · have hbeq : (compkey r == k) = true := by simp [hrk]
        rw [if_pos hbeq, ih (compkey r :: seen)]
        have hkmem : k ∈ compkey r :: seen := by
          rw [← hrk]
          exact List.mem_cons_self _ _
        rw [if_pos hkmem]
        have hknot : ¬k ∈ seen := by
          intro hk
          rw [← hrk] at hk
          exact hseen hk
        have hstep : List.find? (fun s => compkey s == k) (r :: rs) = some r := by
          simp [List.find?, hbeq]
        rw [if_neg hknot, hstep]
        rfl
      · have hbeq : ¬((compkey r == k) = true) := by simp [hrk]
        rw [if_neg hbeq, ih (compkey r :: seen)]
        have hiff : (k ∈ compkey r :: seen) ↔ k ∈ seen := by
          constructor
          · intro hk
            rcases List.mem_cons.mp hk with heq | hk2
            · exact absurd heq.symm hrk
            · exact hk2
          · exact List.mem_cons_of_mem _
        by_cases hk : k ∈ seen
        · rw [if_pos (hiff.mpr hk), if_pos hk]
        · have hbf : (compkey r == k) = false := beq_eq_false_iff_ne.mpr hrk
          have hstep : List.find? (fun s => compkey s == k) (r :: rs) =
              List.find? (fun s => compkey s == k) rs := by
            simp [List.find?, hbf]
          rw [if_neg (fun hmem => hk (hiff.mp hmem)), if_neg hk, hstep]

/-- **C10**: the dashboard cleaner deduplicates differently from the
batch cleaner: `_clean` keeps exactly the first valid row of each
composite-key group (its filtered table, keyed after the validity
filters), so on a table with a duplicated key its surviving rows differ
from the batch cleaner's, which drops the whole group. -/
theorem app_clean_keeps_first_of_group :
    (∀ (rows : List Row) (k : Key),
      (app_clean rows).filter (fun r => compkey r == k) =
        ((app_filters rows).find? (fun r => compkey r == k)).toList) ∧
    app_clean exDupApp = [rowB] ∧ cleanRows exDupApp = [] := by
  refine ⟨?_, by decide, by decide⟩
  intro rows k
  have h := dedup_first_filter k (app_filters rows) []
  simpa [app_clean] using h

/-! ### Aggregation lemmas -/

theorem sumAmount_cons (r : Row) (l : List Row) :
    sumAmount (r :: l) = amountOf r + sumAmount l := by
  simp [sumAmount]

/-- Adding one contribution at a key occurring once in a `Nodup` key
list shifts the mapped sum by that contribution. -/
theorem list_sum_update {K : Type} [DecidableEq K] (ks : List K)
    (hnd : ks.Nodup) (v0 : K) (hv : v0 ∈ ks) (g : K → Rat) (x : Rat) :
    (ks.map (fun v => if v0 = v then x + g v else g v)).sum = x + (ks.map g).sum := by
  induction ks with
  | nil => cases hv
  | cons a ks ih =>
    simp only [List.map_cons, List.sum_cons]
    rcases List.mem_cons.mp hv with rfl | hmem
    · rw [if_pos rfl]
      have hnotin := (List.nodup_cons.mp hnd).1
      have hmap : ks.map (fun v => if v0 = v then x + g v else g v) = ks.map g := by
        apply List.map_congr_left
        intro v hvm
        apply if_neg
        intro he
        rw [he] at hnotin
        exact hnotin hvm
      rw [hmap]
      ring
    · have hne : v0 ≠ a := by
        intro he
        rw [he] at hmem
        exact (List.nodup_cons.mp hnd).1 hmem
      rw [if_neg hne, ih (List.nodup_cons.mp hnd).2 hmem]
      ring

/-- Summing the per-group `Amount` over a `Nodup` list of group keys
covering every key present equals the `Amount` sum over rows with a
present key (pandas `groupby` drops rows whose key is missing). -/
theorem sum_fiber {K : Type} [DecidableEq K] (key : Row → Option K)
    (ks : List K) (hnd : ks.Nodup) :
    ∀ l : List Row, (∀ r ∈ l, ∀ v, key r = some v → v ∈ ks) →
      (ks.map (fun v => sumAmount (l.filter (fun s => key s == some v)))).sum =
        sumAmount (l.filter (fun s => (key s).isSome)) := by
  intro l
  induction l with
  | nil =>
    intro _
    simp only [List.filter_nil]
    rw [show sumAmount ([] : List Row) = 0 from rfl]
    exact List.sum_eq_zero (by
      intro x hx
      rcases List.mem_map.mp hx with ⟨v, -, hvx⟩
      exact hvx.symm)
  | cons r l ih =>
    intro hcov
    have hcov2 : ∀ s ∈ l, ∀ v, key s = some v → v ∈ ks :=
      fun s hs => hcov s (List.mem_cons_of_mem r hs)
    cases hv : key r with
    | none =>
      have hmap : ks.map
            (fun v => sumAmount ((r :: l).filter (fun s => key s == some v))) =
          ks.map (fun v => sumAmount (l.filter (fun s => key s == some v))) := by
        apply List.map_congr_left
        intro v _
        rw [List.filter_cons]
        simp [hv]
      rw [hmap, List.filter_cons]
      simp only [hv, Option.isSome_none, Bool.false_eq_true, if_false]
      exact ih hcov2
    | some v0 =>
      have hv0 : v0 ∈ ks := hcov r (List.mem_cons_self r l) v0 hv
      have hfun : ∀ v ∈ ks,
          sumAmount ((r :: l).filter (fun s => key s == some v)) =
            (fun v => if v0 = v then
                amountOf r + sumAmount (l.filter (fun s => key s == some v))
              else sumAmount (l.filter (fun s => key s == some v))) v := by
        intro v _
        rw [List.filter_cons]
        by_cases h : v0 = v
        · simp [hv, h, sumAmount_cons]
        · simp [hv, h]
      rw [List.map_congr_left hfun,
        list_sum_update ks hnd v0 hv0
          (fun v => sumAmount (l.filter (fun s => key s == some v))) (amountOf r),
        ih hcov2, List.filter_cons]
      simp only [hv, Option.isSome_some, if_true]
      rw [sumAmount_cons]

/-- `DaysPastDue` values are nonnegative, hence always fall in a bin. -/
theorem agingBucket_isSome {d : Int} (h : 0 ≤ d) : (agingBucket d).isSome = true := by
  unfold agingBucket
  rw [if_neg (by omega)]
  split_ifs <;> simp

/-- A pair list whose second components are all `1` sums (over them) to
its length. -/
theorem sum_snd_ones : ∀ l : List (String × Rat), (∀ p ∈ l, p.2 = 1) →
    (l.map (fun p => p.2)).sum = (l.length : Rat) := by
  intro l
  induction l with
  | nil => intro _; simp
  | cons p l ih =>
    intro h
    simp only [List.map_cons, List.sum_cons, List.length_cons]
    rw [h p (List.mem_cons_self p l), ih (fun q hq => h q (List.mem_cons_of_mem p hq))]
    push_cast
    ring

/-- **C6** (amended): the aging-by-bucket view over open invoices
conserves the open `Amount` total; the top-vendors view conserves the
`Amount` total over rows with a present `Vendor` provided the table has
at most `top_n = 10` distinct vendors (beyond that the view keeps only
the ten largest groups, and rows with a missing `Vendor` are always
excluded by `groupby`). -/
theorem aggregation_sums_amended (today : Int) (rows : List Row) :
    ((report_aging_open today rows).map (fun t => t.2.1)).sum =
      sumAmount (openRows rows) ∧
    ((vendor_keys rows).length ≤ 10 →
      ((report_top_vendors rows 10).map (fun p => p.2)).sum =
        sumAmount (rows.filter (fun r => (r.vendor).isSome))) := by
  constructor
  · have hnd : allBuckets.Nodup := by decide
    have hcov : ∀ r ∈ openRows rows, ∀ v,
        agingBucket (daysPastDue today r) = some v → v ∈ allBuckets := by
      intro r _ v _
      cases v <;> simp [allBuckets]
    have hfib := sum_fiber (fun s => agingBucket (daysPastDue today s))
      allBuckets hnd (openRows rows) hcov
    have hall : (openRows rows).filter
        (fun s => (agingBucket (daysPastDue today s)).isSome) = openRows rows :=
      List.filter_eq_self.mpr (fun r _ => agingBucket_isSome (le_max_left _ _))
    rw [hall] at hfib
    simp only [report_aging_open, List.map_map, Function.comp]
    exact hfib
  · intro hlen
    have hperm := List.perm_insertionSort (fun a b : String × Rat => b.2 ≤ a.2)
      ((vendor_keys rows).map (fun v => (v, vendor_sum rows v)))
    have hlensort : (List.insertionSort (fun a b : String × Rat => b.2 ≤ a.2)
        ((vendor_keys rows).map (fun v => (v, vendor_sum rows v)))).length ≤ 10 := by
      rw [hperm.length_eq, List.length_map]
      exact hlen
    rw [report_top_vendors, List.take_of_length_le hlensort,
      (hperm.map (fun p : String × Rat => p.2)).sum_eq]
    have hnd : (vendor_keys rows).Nodup := by
      unfold vendor_keys
      exact ((List.perm_insertionSort (fun a b => strLe a b = true)
          ((rows.filterMap (fun r => r.vendor)).dedup)).nodup_iff).mpr
        (List.nodup_dedup _)
    have hcov : ∀ r ∈ rows, ∀ v, r.vendor = some v → v ∈ vendor_keys rows := by
      intro r hr v hv
      unfold vendor_keys
      rw [(List.perm_insertionSort (fun a b => strLe a b = true)
          ((rows.filterMap (fun s => s.vendor)).dedup)).mem_iff]
      exact List.mem_dedup.mpr (List.mem_filterMap.mpr ⟨r, hr, hv⟩)
    have hfib := sum_fiber (fun s => s.vendor) (vendor_keys rows) hnd rows hcov
    simp only [List.map_map, Function.comp]
    simp only [vendor_sum] at hfib ⊢
    exact hfib

/-- Witness for `aggregation_sums_amended` at a two-vendor table. -/
theorem aggregation_sums_amended_witness :
    ((report_top_vendors exGood 10).map (fun p => p.2)).sum =
      sumAmount (exGood.filter (fun r => (r.vendor).isSome)) :=
  (aggregation_sums_amended 0 exGood).2 (by decide)

/-- **C6** counterexample: the claim "the sum of per-vendor `Amount` in
the top-vendors view equals the total `Amount` of the whole table"
fails on a table with eleven vendors (the view keeps only ten groups)
and on a table whose single row has no `Vendor` (dropped by `groupby`). -/
theorem top_vendors_sum_counterexample :
    ((report_top_vendors exVendors 10).map (fun p => p.2)).sum ≠ sumAmount exVendors ∧
    ((report_top_vendors exNoVendor 10).map (fun p => p.2)).sum ≠ sumAmount exNoVendor := by
  constructor
  · have hkeys : vendor_keys exVendors =
        ["V01", "V02", "V03", "V04", "V05", "V06", "V07", "V08", "V09", "V10", "V11"] := by
      decide
    have hperm := List.perm_insertionSort (fun a b : String × Rat => b.2 ≤ a.2)
      ((vendor_keys exVendors).map (fun v => (v, vendor_sum exVendors v)))
    have hall1 : ∀ p ∈ (vendor_keys exVendors).map
        (fun v => (v, vendor_sum exVendors v)), p.2 = 1 := by
      intro p hp
      rcases List.mem_map.mp hp with ⟨v, hv, rfl⟩
      rw [hkeys] at hv
      simp only [List.mem_cons, List.not_mem_nil, or_false] at hv
      rcases hv with rfl | rfl | rfl | rfl | rfl | rfl | rfl | rfl | rfl | rfl | rfl <;>
        simp [vendor_sum, sumAmount, exVendors, amountOf, rowA]
    have hall2 : ∀ p ∈ List.insertionSort (fun a b : String × Rat => b.2 ≤ a.2)
        ((vendor_keys exVendors).map (fun v => (v, vendor_sum exVendors v))), p.2 = 1 :=
      fun p hp => hall1 p (hperm.mem_iff.mp hp)
    have hlen : (List.insertionSort (fun a b : String × Rat => b.2 ≤ a.2)
        ((vendor_keys exVendors).map (fun v => (v, vendor_sum exVendors v)))).length = 11 := by
      rw [hperm.length_eq, List.length_map, hkeys]
      rfl
    have htotal : sumAmount exVendors = 11 := by
      norm_num [sumAmount, exVendors, amountOf, rowA]
    rw [report_top_vendors, htotal]
    have hsum := sum_snd_ones _
      (fun p hp => hall2 p (List.take_subset 10 _ hp))
    rw [hsum, List.length_take, hlen]
    norm_num
  · have h1 : report_top_vendors exNoVendor 10 = [] := rfl
    rw [h1]
    have h2 : sumAmount exNoVendor = 250 := by
      norm_num [sumAmount, exNoVendor, amountOf, rowA]
    rw [h2]
    norm_num
